import Mathlib

/-!
Shallow embedding of the settlement core of the `risapp` backend
(`src/backend/server.py`, `src/backend/admin_routes.py`).

Monetary amounts are modelled as exact integers (`Int`); the source uses
Python floats but no claim under study concerns rounding.  Identifiers
(user ids, transaction ids, payment ids, proof-image references, admin
ids) are modelled as `Nat`.  The Mongo collections `users` and
`transactions` are lists of records; Mongo's `find_one` is `List.find?`
and `update_one` is `updateFirst` (both act on the first match only).
The Mercado Pago client is an environment function passed to handlers.
-/

inductive TxStatus where
  | pending
  | pendingReview
  | completed
  | rejected
  | cancelled
deriving DecidableEq, Repr

inductive TxKind where
  | recharge
  | withdrawal
deriving DecidableEq, Repr

structure Tx where
  txId : Nat
  userId : Nat
  kind : TxKind
  status : TxStatus
  amountInput : Int
  amountOutput : Int
  mpPaymentId : Option Nat := none
  proofImage : Option Nat := none
  processedBy : Option Nat := none
deriving DecidableEq, Repr

structure UserRec where
  userId : Nat
  balance : Int
  verified : Bool
deriving DecidableEq, Repr

structure DB where
  users : List UserRec
  transactions : List Tx
  rate : Option Int
deriving DecidableEq, Repr

/-- Mongo `update_one`: rewrite the first element satisfying `p`. -/
def updateFirst (p : α → Bool) (f : α → α) : List α → List α
  | [] => []
  | x :: xs => if p x then f x :: xs else x :: updateFirst p f xs

def findUser (db : DB) (uid : Nat) : Option UserRec :=
  db.users.find? (fun u => u.userId == uid)

def getBalance (db : DB) (uid : Nat) : Int :=
  match findUser db uid with
  | some u => u.balance
  | none => 0

/-- Mongo `users.update_one({"user_id": uid}, {"$inc": {"balance_ris": d}})`. -/
def incBalance (db : DB) (uid : Nat) (d : Int) : DB :=
  let us := updateFirst (fun u => u.userId == uid) (fun u => { u with balance := u.balance + d }) db.users
  { db with users := us }

def findTx (db : DB) (p : Tx → Bool) : Option Tx :=
  db.transactions.find? p

/-- Mongo `transactions.update_one(filter, {"$set": ...})`. -/
def updateTx (db : DB) (p : Tx → Bool) (f : Tx → Tx) : DB :=
  { db with transactions := updateFirst p f db.transactions }

def getTxStatus (db : DB) (k : Nat) : Option TxStatus :=
  (findTx db (fun t => t.txId == k)).map Tx.status

/-- Exchange rate used by `create_withdrawal`: the rate document if present,
else the hard-coded default `78.0`. -/
def currentRate (db : DB) : Int :=
  match db.rate with
  | some r => r
  | none => 78

/-- Result of a Mercado Pago `get_payment_status` call. -/
structure MPInfo where
  approved : Bool
  externalReference : Option Nat
deriving DecidableEq, Repr

/-- The Mercado Pago client: payment id to status lookup. -/
def MPEnv := Nat → Option MPInfo

/-- Result of a Mercado Pago `create_pix_payment` call. -/
structure MPCreate where
  success : Bool
  paymentId : Nat
deriving DecidableEq, Repr

inductive WResult where
  | noUser
  | insufficient
  | created (t : Tx)
deriving DecidableEq, Repr

/-- `POST /withdrawal/create` (`server.py create_withdrawal`): read rate,
refuse when `balance_ris < amount_ris`, else insert a `pending`
withdrawal with `amount_output = amount_ris * rate` and then debit the
balance.  `txId` models the freshly generated uuid. -/
def create_withdrawal (db : DB) (uid txId : Nat) (amount : Int) : DB × WResult :=
  match findUser db uid with
  | none => (db, .noUser)
  | some u =>
    let rate := currentRate db
    if u.balance < amount then (db, .insufficient)
    else
      let t : Tx := { txId := txId, userId := uid, kind := .withdrawal,
                      status := .pending, amountInput := amount,
                      amountOutput := amount * rate }
      let db1 := { db with transactions := db.transactions ++ [t] }
      let db2 := incBalance db1 uid (-amount)
      (db2, .created t)

inductive PixCreateResult where
  | noUser
  | amountTooLow
  | amountTooHigh
  | notVerified
  | duplicatePending
  | providerError
  | created (t : Tx)
deriving DecidableEq, Repr

def hasPendingRecharge (db : DB) (uid : Nat) (amount : Int) : Bool :=
  db.transactions.any (fun t =>
    t.userId == uid && t.kind == .recharge && t.status == .pending
      && t.amountInput == amount)

/-- `POST /pix/create` (`server.py create_pix_payment`): bounds check
(10..2000), verified-account check, duplicate-pending-amount guard
(status `pending` only), provider call, then insert a `pending` recharge
with `amount_input = amount_output = amount` (1:1, the rate is not
consulted). -/
def create_pix_payment (db : DB) (uid txId : Nat) (amount : Int)
    (mp : MPCreate) : DB × PixCreateResult :=
  match findUser db uid with
  | none => (db, .noUser)
  | some u =>
    if amount < 10 then (db, .amountTooLow)
    else if 2000 < amount then (db, .amountTooHigh)
    else if !u.verified then (db, .notVerified)
    else if hasPendingRecharge db uid amount then (db, .duplicatePending)
    else if !mp.success then (db, .providerError)
    else
      let t : Tx := { txId := txId, userId := uid, kind := .recharge,
                      status := .pending, amountInput := amount,
                      amountOutput := amount,
                      mpPaymentId := some mp.paymentId }
      ({ db with transactions := db.transactions ++ [t] }, .created t)

inductive PixStatusResult where
  | notFound
  | alreadyCompleted
  | completedNow (amt : Int)
  | stillPending
deriving DecidableEq, Repr

/-- `GET /pix/status/{id}` (`server.py get_pix_status`): find the
transaction by `(transaction_id, user_id)` (no status filter), return
early when already `completed`; otherwise ask the provider and, on
`approved`, first `$inc` the balance by `amount_output`, then set the
status to `completed` with an update filtered on `transaction_id` only. -/
def get_pix_status (db : DB) (uid txId : Nat) (mp : MPEnv) :
    DB × PixStatusResult :=
  match findTx db (fun t => t.txId == txId && t.userId == uid) with
  | none => (db, .notFound)
  | some t =>
    if t.status == .completed then (db, .alreadyCompleted)
    else
      match t.mpPaymentId with
      | none => (db, .stillPending)
      | some pid =>
        match mp pid with
        | some i =>
          if i.approved then
            let amt := t.amountOutput
            let db1 := incBalance db uid amt
            let db2 := updateTx db1 (fun x => x.txId == txId)
              (fun x => { x with status := .completed })
            (db2, .completedNow amt)
          else (db, .stillPending)
        | none => (db, .stillPending)

inductive VerifyResult where
  | notFound
  | completedNow (amt : Int)
  | pendingReviewNow
deriving DecidableEq, Repr

/-- `POST /pix/verify-with-proof` (`server.py verify_pix_with_proof`):
find the `pending` recharge owned by the caller; if the provider already
reports `approved`, `$inc` the balance then set `completed` (update
filtered on `transaction_id` only); otherwise set `pending_review` and
attach the proof image, with no balance effect. -/
def verify_pix_with_proof (db : DB) (uid txId proofRef : Nat) (mp : MPEnv) :
    DB × VerifyResult :=
  match findTx db (fun t => t.txId == txId && t.userId == uid
      && t.kind == .recharge && t.status == .pending) with
  | none => (db, .notFound)
  | some t =>
    let isAuto :=
      match t.mpPaymentId with
      | some pid =>
        match mp pid with
        | some i => i.approved
        | none => false
      | none => false
    let amt := t.amountOutput
    if isAuto then
      let db1 := incBalance db uid amt
      let db2 := updateTx db1 (fun x => x.txId == txId)
        (fun x => { x with status := .completed, proofImage := some proofRef })
      (db2, .completedNow amt)
    else
      (updateTx db (fun x => x.txId == txId) (fun x => { x with
        status := .pendingReview
        proofImage := some proofRef }), .pendingReviewNow)

/-- `POST /webhooks/mercadopago` (`server.py mercadopago_webhook`): look
up the payment with the provider; on `approved` with an external
reference, find the transaction by `(transaction_id, status=pending)`,
`$inc` the owner's balance by `amount_output`, then set `completed`
with an update filtered on `transaction_id` only. -/
def mercadopago_webhook (db : DB) (paymentId : Nat) (mp : MPEnv) : DB :=
  match mp paymentId with
  | some i =>
    if i.approved then
      match i.externalReference with
      | some ref =>
        match findTx db (fun t => t.txId == ref && t.status == .pending) with
        | some t =>
          let db1 := incBalance db t.userId t.amountOutput
          updateTx db1 (fun x => x.txId == ref)
            (fun x => { x with status := .completed })
        | none => db
      | none => db
    else db
  | none => db

inductive LegacyResult where
  | notFound
  | ok
deriving DecidableEq, Repr

/-- `POST /withdrawal/process` (`server.py process_withdrawal`): update
the transaction by `transaction_id` with **no status filter**, setting
`completed` and overwriting the proof image; 404 only when no document
matched. -/
def process_withdrawal (db : DB) (txId proofRef adminId : Nat) :
    DB × LegacyResult :=
  if db.transactions.any (fun t => t.txId == txId) then
    (updateTx db (fun t => t.txId == txId) (fun t => { t with
      status := .completed
      proofImage := some proofRef
      processedBy := some adminId }), .ok)
  else (db, .notFound)

inductive AdminWResult where
  | notFound
  | needProof
  | approved
  | rejectedOk
deriving DecidableEq, Repr

/-- `POST /admin/withdrawals/process` (`admin_routes.py` and the
duplicate in `server.py`, identical settlement semantics): find the
transaction by `(transaction_id, status=pending)`; on approve set
`completed` with proof; on reject first `$inc` the balance back by
`amount_input`, then set `rejected`. -/
def process_withdrawal_admin (db : DB) (txId : Nat) (approve : Bool)
    (proofRef : Option Nat) (adminId : Nat) : DB × AdminWResult :=
  match findTx db (fun t => t.txId == txId && t.status == .pending) with
  | none => (db, .notFound)
  | some t =>
    if approve then
      match proofRef with
      | none => (db, .needProof)
      | some p =>
        (updateTx db (fun x => x.txId == txId) (fun x => { x with
          status := .completed
          proofImage := some p
          processedBy := some adminId }), .approved)
    else
      let db1 := incBalance db t.userId t.amountInput
      (updateTx db1 (fun x => x.txId == txId)
        (fun x => { x with status := .rejected }), .rejectedOk)

inductive ARResult where
  | notFound
  | completedOk
  | rejectedOk
deriving DecidableEq, Repr

/-- `POST /admin/recharges/approve` (`admin_routes.py approve_recharge`):
find the transaction by `(transaction_id, status=pending_review)`; on
approve `$inc` the balance by `amount_output` then set `completed`; on
reject set `rejected` with no balance effect. -/
def approve_recharge (db : DB) (txId : Nat) (approved : Bool)
    (adminId : Nat) : DB × ARResult :=
  match findTx db (fun t => t.txId == txId && t.status == .pendingReview) with
  | none => (db, .notFound)
  | some t =>
    if approved then
      let db1 := incBalance db t.userId t.amountOutput
      (updateTx db1 (fun x => x.txId == txId) (fun x => { x with
        status := .completed
        processedBy := some adminId }), .completedOk)
    else
      (updateTx db (fun x => x.txId == txId)
        (fun x => { x with status := .rejected }), .rejectedOk)

/-- `POST /pix/cancel/{id}` (`server.py cancel_pix_payment`): find the
caller's recharge in status `pending` or `pending_review`, set
`cancelled`; no balance effect. -/
def cancel_pix_payment (db : DB) (uid txId : Nat) : DB × Bool :=
  match findTx db (fun t => t.txId == txId && t.userId == uid
      && t.kind == .recharge
      && (t.status == .pending || t.status == .pendingReview)) with
  | none => (db, false)
  | some _ =>
    (updateTx db (fun x => x.txId == txId)
      (fun x => { x with status := .cancelled }), true)

/-- `PUT /admin/users/{id}/balance` (`admin_routes.py` /
`server.py update_user_balance`): unconditional `$inc` of the balance by
an arbitrary signed amount; 404 when the user does not exist. -/
def update_user_balance (db : DB) (uid : Nat) (amount : Int) : DB × Bool :=
  match findUser db uid with
  | none => (db, false)
  | some _ => (incBalance db uid amount, true)

/-- `POST /admin/settings/rate` (`admin_routes.py update_exchange_rate`):
`delete_many` on the rate collection followed by an insert, i.e. replace
the singleton rate document. -/
def update_exchange_rate (db : DB) (r : Int) : DB :=
  { db with rate := some r }

/-!
## Ledger-operation traces

Instrumented renditions of the three recharge-completion handlers: the
same control flow as above, additionally emitting the sequence of atomic
store operations each run performs, in order.  `readTx` records the
status filter used by the `find_one` and the status of the document
found (if any); `writeTx` records the status filter used by the
`update_one` (`none` = the update is not guarded on a status) and the
status it sets; `writeBalance` records a `$inc` on a user balance.
-/

inductive LedgerOp where
  | readTx (guard : Option TxStatus) (found : Option TxStatus)
  | writeTx (guard : Option TxStatus) (newStatus : TxStatus)
  | writeBalance (delta : Int)
deriving DecidableEq, Repr

/-- Trace-emitting rendition of `mercadopago_webhook`. -/
def mercadopago_webhook_trace (db : DB) (paymentId : Nat) (mp : MPEnv) :
    DB × List LedgerOp :=
  match mp paymentId with
  | some i =>
    if i.approved then
      match i.externalReference with
      | some ref =>
        match findTx db (fun t => t.txId == ref && t.status == .pending) with
        | some t =>
          let db1 := incBalance db t.userId t.amountOutput
          let db2 := updateTx db1 (fun x => x.txId == ref)
            (fun x => { x with status := .completed })
          (db2, [.readTx (some .pending) (some t.status),
                 .writeBalance t.amountOutput,
                 .writeTx none .completed])
        | none => (db, [.readTx (some .pending) none])
      | none => (db, [])
    else (db, [])
  | none => (db, [])

/-- Trace-emitting rendition of `get_pix_status`. -/
def get_pix_status_trace (db : DB) (uid txId : Nat) (mp : MPEnv) :
    DB × List LedgerOp :=
  match findTx db (fun t => t.txId == txId && t.userId == uid) with
  | none => (db, [.readTx none none])
  | some t =>
    if t.status == .completed then (db, [.readTx none (some t.status)])
    else
      match t.mpPaymentId with
      | none => (db, [.readTx none (some t.status)])
      | some pid =>
        match mp pid with
        | some i =>
          if i.approved then
            let amt := t.amountOutput
            let db1 := incBalance db uid amt
            let db2 := updateTx db1 (fun x => x.txId == txId)
              (fun x => { x with status := .completed })
            (db2, [.readTx none (some t.status),
                   .writeBalance amt,
                   .writeTx none .completed])
          else (db, [.readTx none (some t.status)])
        | none => (db, [.readTx none (some t.status)])

/-- Trace-emitting rendition of `verify_pix_with_proof`. -/
def verify_pix_with_proof_trace (db : DB) (uid txId proofRef : Nat)
    (mp : MPEnv) : DB × List LedgerOp :=
  match findTx db (fun t => t.txId == txId && t.userId == uid
      && t.kind == .recharge && t.status == .pending) with
  | none => (db, [.readTx (some .pending) none])
  | some t =>
    let isAuto :=
      match t.mpPaymentId with
      | some pid =>
        match mp pid with
        | some i => i.approved
        | none => false
      | none => false
    let amt := t.amountOutput
    if isAuto then
      let db1 := incBalance db uid amt
      let db2 := updateTx db1 (fun x => x.txId == txId)
        (fun x => { x with status := .completed, proofImage := some proofRef })
      (db2, [.readTx (some .pending) (some t.status),
             .writeBalance amt,
             .writeTx none .completed])
    else
      (updateTx db (fun x => x.txId == txId) (fun x => { x with
        status := .pendingReview
        proofImage := some proofRef }),
       [.readTx (some .pending) (some t.status),
        .writeTx none .pendingReview])

/-- The spec's ordering discipline, over a trace: every balance mutation
is preceded by a status-guarded transaction update (a compare-and-swap on
the stored status). -/
def creditAfterCas (tr : List LedgerOp) : Bool :=
  (tr.foldl (fun st op =>
    match st, op with
    | (_, ok), .writeTx (some _) _ => (true, ok)
    | (seenCas, ok), .writeBalance _ => (seenCas, ok && seenCas)
    | st, _ => st) (false, true)).2

/-- What the handlers actually do, over a trace: every balance mutation
is preceded by a transaction read that observed a not-yet-`completed`
status, is followed by a transaction status write, and no status write of
any kind precedes the balance mutation (in particular no status-guarded
one). -/
def creditAfterObservedRead (tr : List LedgerOp) : Bool :=
  (tr.foldl (fun st op =>
    match st, op with
    | (r, w, pend, ok), .readTx _ (some s) =>
        (r || !(s == .completed), w, pend, ok)
    | st, .readTx _ none => st
    | (r, w, pend, ok), .writeBalance _ => (r, w, pend + 1, ok && r && !w)
    | (r, _, _, ok), .writeTx _ _ => (r, true, 0, ok)
    ) (false, false, 0, true)).2.2.2
  && (tr.foldl (fun st op =>
    match st, op with
    | (pend, ok), .writeBalance _ => (pend + 1, ok)
    | (_, ok), .writeTx _ _ => (0, ok)
    | st, .readTx _ _ => st) ((0 : Nat), true)).1 == 0

/-!
## Step-level webhook processes

`mercadopago_webhook` performs three separate awaited store calls: the
`find_one`, the balance `$inc`, and the status `update_one`.  Between any
two of them another request handler may run.  `webhookStep` is the
handler cut at those await points; `run2` interleaves two deliveries of
the same webhook event according to a boolean schedule (`false` steps
process A, `true` steps process B).
-/

inductive WebPc where
  | start
  | credit (t : Tx)
  | mark (t : Tx)
  | done
deriving DecidableEq, Repr

/-- One atomic store call of a webhook delivery for payment `paymentId`. -/
def webhookStep (paymentId : Nat) (mp : MPEnv) (db : DB) (pc : WebPc) :
    DB × WebPc :=
  match pc with
  | .start =>
    match mp paymentId with
    | some i =>
      if i.approved then
        match i.externalReference with
        | some ref =>
          match findTx db (fun t => t.txId == ref && t.status == .pending) with
          | some t => (db, .credit t)
          | none => (db, .done)
        | none => (db, .done)
      else (db, .done)
    | none => (db, .done)
  | .credit t => (incBalance db t.userId t.amountOutput, .mark t)
  | .mark t =>
    (updateTx db (fun x => x.txId == t.txId)
      (fun x => { x with status := .completed }), .done)
  | .done => (db, .done)

/-- Interleave two webhook deliveries of the same event. -/
def run2 (paymentId : Nat) (mp : MPEnv) :
    DB → WebPc × WebPc → List Bool → DB × (WebPc × WebPc)
  | db, pcs, [] => (db, pcs)
  | db, (pa, pb), true :: rest =>
    let s := webhookStep paymentId mp db pb
    run2 paymentId mp s.1 (pa, s.2) rest
  | db, (pa, pb), false :: rest =>
    let s := webhookStep paymentId mp db pa
    run2 paymentId mp s.1 (s.2, pb) rest

/-!
## Sequential operation sequences

The user/operator-triggered operations of the settlement core, applied
sequentially to the store, for invariant claims over operation
sequences.
-/

inductive Event where
  | evCreateWithdrawal (uid txId : Nat) (amount : Int)
  | evAdminProcessWithdrawal (txId : Nat) (approve : Bool) (proofRef : Option Nat) (adminId : Nat)
  | evLegacyProcessWithdrawal (txId proofRef adminId : Nat)
  | evCreatePix (uid txId : Nat) (amount : Int) (mpc : MPCreate)
  | evPixStatusPoll (uid txId : Nat)
  | evVerifyProof (uid txId proofRef : Nat)
  | evWebhook (paymentId : Nat)
  | evApproveRecharge (txId : Nat) (approved : Bool) (adminId : Nat)
  | evCancelPix (uid txId : Nat)
  | evUpdateRate (r : Int)

def applyEvent (mp : MPEnv) (db : DB) : Event → DB
  | .evCreateWithdrawal uid txId a => (create_withdrawal db uid txId a).1
  | .evAdminProcessWithdrawal txId ap p adm =>
      (process_withdrawal_admin db txId ap p adm).1
  | .evLegacyProcessWithdrawal txId p adm => (process_withdrawal db txId p adm).1
  | .evCreatePix uid txId a mpc => (create_pix_payment db uid txId a mpc).1
  | .evPixStatusPoll uid txId => (get_pix_status db uid txId mp).1
  | .evVerifyProof uid txId p => (verify_pix_with_proof db uid txId p mp).1
  | .evWebhook paymentId => mercadopago_webhook db paymentId mp
  | .evApproveRecharge txId ap adm => (approve_recharge db txId ap adm).1
  | .evCancelPix uid txId => (cancel_pix_payment db uid txId).1
  | .evUpdateRate r => update_exchange_rate db r

def runEvents (mp : MPEnv) (db : DB) (es : List Event) : DB :=
  es.foldl (applyEvent mp) db

/-- Store wellformedness: nonnegative balances, nonnegative transaction
amounts, nonnegative exchange rate. -/
def WF (db : DB) : Prop :=
  (∀ u ∈ db.users, 0 ≤ u.balance)
    ∧ (∀ t ∈ db.transactions, 0 ≤ t.amountInput ∧ 0 ≤ t.amountOutput)
    ∧ 0 ≤ currentRate db

/-- Side condition on an event: withdrawal creations and rate updates
carry nonnegative amounts (the source performs no sign validation on
these two inputs). -/
def eventOk : Event → Prop
  | .evCreateWithdrawal _ _ a => 0 ≤ a
  | .evUpdateRate r => 0 ≤ r
  | _ => True

/-!
## Store lemmas
-/

theorem updateFirst_cons_pos {p : α → Bool} {f : α → α} {x : α} {xs : List α}
    (hx : p x = true) : updateFirst p f (x :: xs) = f x :: xs := by
  simp [updateFirst, hx]

theorem updateFirst_cons_neg {p : α → Bool} {f : α → α} {x : α} {xs : List α}
    (hx : p x = false) : updateFirst p f (x :: xs) = x :: updateFirst p f xs := by
  simp [updateFirst, hx]

theorem updateFirst_of_forall_false {p : α → Bool} {f : α → α} {l : List α}
    (h : ∀ x ∈ l, p x = false) : updateFirst p f l = l := by
  induction l with
  | nil => rfl
  | cons x xs ih =>
    rw [updateFirst_cons_neg (h x (List.mem_cons_self x xs)),
      ih fun y hy => h y (List.mem_cons_of_mem x hy)]

theorem mem_updateFirst_find {p : α → Bool} {f : α → α} {l : List α} {a y : α}
    (hfind : l.find? p = some a) (hy : y ∈ updateFirst p f l) :
    y ∈ l ∨ y = f a := by
  induction l with
  | nil => simp [updateFirst] at hy
  | cons x xs ih =>
    cases hx : p x with
    | true =>
      rw [List.find?_cons_of_pos _ hx] at hfind
      injection hfind with hfind
      subst hfind
      rw [updateFirst_cons_pos hx] at hy
      rcases List.mem_cons.mp hy with h | h
      · right; exact h
      · left; exact List.mem_cons_of_mem x h
    | false =>
      rw [List.find?_cons_of_neg _ (by simp [hx])] at hfind
      rw [updateFirst_cons_neg hx] at hy
      rcases List.mem_cons.mp hy with h | h
      · left; exact h ▸ List.mem_cons_self x xs
      · rcases ih hfind h with h | h
        · left; exact List.mem_cons_of_mem x h
        · right; exact h

theorem mem_updateFirst {p : α → Bool} {f : α → α} {l : List α} {y : α}
    (hy : y ∈ updateFirst p f l) :
    y ∈ l ∨ ∃ a, l.find? p = some a ∧ y = f a := by
  cases hfind : l.find? p with
  | none =>
    left
    rwa [updateFirst_of_forall_false
      (fun x hx => Bool.eq_false_iff.mpr (List.find?_eq_none.mp hfind x hx))] at hy
  | some a =>
    rcases mem_updateFirst_find hfind hy with h | h
    · left; exact h
    · right; exact ⟨a, rfl, h⟩

theorem find?_updateFirst_same {p : α → Bool} {f : α → α} {l : List α} {a : α}
    (hfind : l.find? p = some a) (hfa : p (f a) = true) :
    (updateFirst p f l).find? p = some (f a) := by
  induction l with
  | nil => simp at hfind
  | cons x xs ih =>
    cases hx : p x with
    | true =>
      rw [List.find?_cons_of_pos _ hx] at hfind
      injection hfind with hfind
      subst hfind
      rw [updateFirst_cons_pos hx]
      exact List.find?_cons_of_pos _ hfa
    | false =>
      rw [List.find?_cons_of_neg _ (by simp [hx])] at hfind
      rw [updateFirst_cons_neg hx, List.find?_cons_of_neg _ (by simp [hx])]
      exact ih hfind

theorem find?_updateFirst_other {p q : α → Bool} {f : α → α} {l : List α}
    (h : ∀ x ∈ l, p x = true → (q x = false ∧ q (f x) = false)) :
    (updateFirst p f l).find? q = l.find? q := by
  induction l with
  | nil => rfl
  | cons x xs ih =>
    cases hx : p x with
    | true =>
      rcases h x (List.mem_cons_self x xs) hx with ⟨hqx, hqfx⟩
      rw [updateFirst_cons_pos hx, List.find?_cons_of_neg _ (by simp [hqfx]),
        List.find?_cons_of_neg _ (by simp [hqx])]
    | false =>
      rw [updateFirst_cons_neg hx]
      cases hqx : q x with
      | true =>
        rw [List.find?_cons_of_pos _ hqx, List.find?_cons_of_pos _ hqx]
      | false =>
        rw [List.find?_cons_of_neg _ (by simp [hqx]),
          List.find?_cons_of_neg _ (by simp [hqx])]
        exact ih fun y hy => h y (List.mem_cons_of_mem x hy)

theorem find?_updateFirst_none {p q : α → Bool} {f : α → α} {l : List α}
    (hpq : ∀ x ∈ l, q x = true → p x = true)
    (hf : ∀ x, p x = true → q (f x) = false)
    (hcount : l.countP p ≤ 1) :
    (updateFirst p f l).find? q = none := by
  induction l with
  | nil => rfl
  | cons x xs ih =>
    cases hx : p x with
    | true =>
      rw [updateFirst_cons_pos hx,
        List.find?_cons_of_neg _ (by simp [hf x hx]), List.find?_eq_none]
      intro y hy hqy
      have hpy := hpq y (List.mem_cons_of_mem x hy) hqy
      have h1 : 0 < xs.countP p := List.countP_pos_iff.mpr ⟨y, hy, hpy⟩
      have h2 : (x :: xs).countP p = xs.countP p + 1 :=
        List.countP_cons_of_pos p xs hx
      omega
    | false =>
      have hqx : q x = false := by
        cases hq : q x with
        | false => rfl
        | true =>
          exact absurd (hpq x (List.mem_cons_self x xs) hq) (by simp [hx])
      rw [updateFirst_cons_neg hx, List.find?_cons_of_neg _ (by simp [hqx])]
      refine ih (fun y hy => hpq y (List.mem_cons_of_mem x hy)) ?_
      have h2 : (x :: xs).countP p = xs.countP p :=
        List.countP_cons_of_neg p xs (by simp [hx])
      omega

theorem map_updateFirst {p : α → Bool} {f : α → α} {key : α → β} {l : List α}
    (hf : ∀ x, key (f x) = key x) :
    (updateFirst p f l).map key = l.map key := by
  induction l with
  | nil => rfl
  | cons x xs ih =>
    cases hx : p x with
    | true => rw [updateFirst_cons_pos hx]; simp [hf]
    | false => rw [updateFirst_cons_neg hx]; simp only [List.map_cons, ih]

theorem find?_append_of_none {p : α → Bool} {l₁ l₂ : List α}
    (h : l₁.find? p = none) : (l₁ ++ l₂).find? p = l₂.find? p := by
  induction l₁ with
  | nil => rfl
  | cons x xs ih =>
    cases hx : p x with
    | true => rw [List.find?_cons_of_pos _ hx] at h; exact absurd h (by simp)
    | false =>
      rw [List.find?_cons_of_neg _ (by simp [hx])] at h
      rw [List.cons_append, List.find?_cons_of_neg _ (by simp [hx])]
      exact ih h

theorem updateFirst_append_of_none {p : α → Bool} {f : α → α} {l₁ l₂ : List α}
    (h : l₁.find? p = none) :
    updateFirst p f (l₁ ++ l₂) = l₁ ++ updateFirst p f l₂ := by
  induction l₁ with
  | nil => rfl
  | cons x xs ih =>
    cases hx : p x with
    | true => rw [List.find?_cons_of_pos _ hx] at h; exact absurd h (by simp)
    | false =>
      rw [List.find?_cons_of_neg _ (by simp [hx])] at h
      rw [List.cons_append, updateFirst_cons_neg hx, ih h, List.cons_append]

theorem find?_of_find?_imp_unique {p q : α → Bool} {l : List α} {a : α}
    (hq : l.find? q = some a) (himp : ∀ x, q x = true → p x = true)
    (hcount : l.countP p ≤ 1) : l.find? p = some a := by
  induction l with
  | nil => simp at hq
  | cons x xs ih =>
    cases hx : p x with
    | true =>
      rw [List.find?_cons_of_pos _ hx]
      cases hqx : q x with
      | true =>
        rw [List.find?_cons_of_pos _ hqx] at hq
        exact hq
      | false =>
        rw [List.find?_cons_of_neg _ (by simp [hqx])] at hq
        have ha := List.find?_some hq
        have hmem := List.mem_of_find?_eq_some hq
        have h1 : 0 < xs.countP p :=
          List.countP_pos_iff.mpr ⟨a, hmem, himp a ha⟩
        have h2 : (x :: xs).countP p = xs.countP p + 1 :=
          List.countP_cons_of_pos p xs hx
        omega
    | false =>
      have hqx : q x = false := by
        cases hq' : q x with
        | false => rfl
        | true => exact absurd (himp x hq') (by simp [hx])
      rw [List.find?_cons_of_neg _ (by simp [hqx])] at hq
      rw [List.find?_cons_of_neg _ (by simp [hx])]
      have h2 : (x :: xs).countP p = xs.countP p :=
        List.countP_cons_of_neg p xs (by simp [hx])
      exact ih hq (by omega)

@[simp] theorem incBalance_transactions (db : DB) (uid : Nat) (d : Int) :
    (incBalance db uid d).transactions = db.transactions := rfl

@[simp] theorem incBalance_rate (db : DB) (uid : Nat) (d : Int) :
    (incBalance db uid d).rate = db.rate := rfl

@[simp] theorem updateTx_users (db : DB) (p : Tx → Bool) (f : Tx → Tx) :
    (updateTx db p f).users = db.users := rfl

@[simp] theorem updateTx_rate (db : DB) (p : Tx → Bool) (f : Tx → Tx) :
    (updateTx db p f).rate = db.rate := rfl

theorem findUser_incBalance_self {db : DB} {uid : Nat} {u : UserRec} {d : Int}
    (hu : findUser db uid = some u) :
    findUser (incBalance db uid d) uid = some { u with balance := u.balance + d } := by
  have hu' : db.users.find? (fun x => x.userId == uid) = some u := hu
  have hp : (fun x : UserRec => x.userId == uid) u = true :=
    @List.find?_some UserRec (fun x => x.userId == uid) u db.users hu'
  show (updateFirst (fun x : UserRec => x.userId == uid)
      (fun x => { x with balance := x.balance + d }) db.users).find?
      (fun x => x.userId == uid) = some { u with balance := u.balance + d }
  exact find?_updateFirst_same hu' hp

theorem getBalance_incBalance_self {db : DB} {uid : Nat} {u : UserRec} {d : Int}
    (hu : findUser db uid = some u) :
    getBalance (incBalance db uid d) uid = u.balance + d := by
  unfold getBalance
  rw [findUser_incBalance_self hu]

theorem getBalance_incBalance_other {db : DB} {uid v : Nat} {d : Int}
    (hne : v ≠ uid) :
    getBalance (incBalance db uid d) v = getBalance db v := by
  unfold getBalance findUser
  rw [show (incBalance db uid d).users = updateFirst (fun x => x.userId == uid)
      (fun x => { x with balance := x.balance + d }) db.users from rfl]
  rw [find?_updateFirst_other]
  intro x _ hx
  have hxu : x.userId = uid := by simpa using hx
  have hxv : (x.userId == v) = false := by
    simp only [hxu]
    exact beq_eq_false_iff_ne.mpr fun h => hne h.symm
  exact ⟨hxv, hxv⟩

theorem getBalance_updateTx (db : DB) (p : Tx → Bool) (f : Tx → Tx) (v : Nat) :
    getBalance (updateTx db p f) v = getBalance db v := rfl

/-!
## Wellformedness preservation
-/

theorem WF_users_nonneg {db : DB} (h : WF db) :
    ∀ u ∈ db.users, 0 ≤ u.balance := h.1

theorem WF_incBalance_credit {db : DB} {uid : Nat} {d : Int}
    (h : WF db) (hd : 0 ≤ d) : WF (incBalance db uid d) := by
  refine ⟨?_, h.2.1, ?_⟩
  · intro y hy
    rcases mem_updateFirst hy with hmem | ⟨a, hfind, rfl⟩
    · exact h.1 y hmem
    · have ha := h.1 a (List.mem_of_find?_eq_some hfind)
      simp only []
      omega
  · have : currentRate (incBalance db uid d) = currentRate db := rfl
    rw [this]; exact h.2.2

theorem WF_incBalance_debit {db : DB} {uid : Nat} {u : UserRec} {a : Int}
    (h : WF db) (hu : findUser db uid = some u) (ha : a ≤ u.balance) :
    WF (incBalance db uid (-a)) := by
  refine ⟨?_, h.2.1, ?_⟩
  · intro y hy
    rcases mem_updateFirst_find hu hy with hmem | rfl
    · exact h.1 y hmem
    · simp only []
      omega
  · have : currentRate (incBalance db uid (-a)) = currentRate db := rfl
    rw [this]; exact h.2.2

theorem WF_updateTx {db : DB} {p : Tx → Bool} {f : Tx → Tx}
    (h : WF db)
    (hf : ∀ x, (f x).amountInput = x.amountInput
      ∧ (f x).amountOutput = x.amountOutput) :
    WF (updateTx db p f) := by
  refine ⟨h.1, ?_, ?_⟩
  · intro y hy
    rcases mem_updateFirst hy with hmem | ⟨a, hfind, rfl⟩
    · exact h.2.1 y hmem
    · rcases h.2.1 a (List.mem_of_find?_eq_some hfind) with ⟨h1, h2⟩
      rw [(hf a).1, (hf a).2]
      exact ⟨h1, h2⟩
  · have : currentRate (updateTx db p f) = currentRate db := rfl
    rw [this]; exact h.2.2

theorem WF_appendTx {db : DB} {t : Tx}
    (h : WF db) (h1 : 0 ≤ t.amountInput) (h2 : 0 ≤ t.amountOutput) :
    WF { db with transactions := db.transactions ++ [t] } := by
  refine ⟨h.1, ?_, h.2.2⟩
  intro y hy
  rcases List.mem_append.mp hy with hmem | hmem
  · exact h.2.1 y hmem
  · rcases List.mem_singleton.mp hmem with rfl
    exact ⟨h1, h2⟩

theorem WF_applyEvent {mp : MPEnv} {db : DB} {e : Event}
    (h : WF db) (he : eventOk e) : WF (applyEvent mp db e) := by
  cases e with
  | evCreateWithdrawal uid txId a =>
    simp only [applyEvent, create_withdrawal]
    cases hu : findUser db uid with
    | none => exact h
    | some u =>
      by_cases hb : u.balance < a
      · simp only [hb, if_true]
        exact h
      · simp only [hb, if_false]
        have ha : 0 ≤ a := he
        have hWF1 : WF { db with transactions := db.transactions ++
            [{ txId := txId, userId := uid, kind := .withdrawal,
               status := .pending, amountInput := a,
               amountOutput := a * currentRate db }] } :=
          WF_appendTx h ha (mul_nonneg ha h.2.2)
        exact WF_incBalance_debit hWF1 hu (by omega)
  | evAdminProcessWithdrawal txId ap p adm =>
    simp only [applyEvent, process_withdrawal_admin]
    cases hfind : findTx db (fun t => t.txId == txId && t.status == .pending) with
    | none => exact h
    | some t =>
      have hmem := List.mem_of_find?_eq_some hfind
      cases ap with
      | true =>
        cases p with
        | none => exact h
        | some pr => exact WF_updateTx h fun x => ⟨rfl, rfl⟩
      | false =>
        have hin : 0 ≤ t.amountInput := (h.2.1 t hmem).1
        exact WF_updateTx (WF_incBalance_credit h hin) fun x => ⟨rfl, rfl⟩
  | evLegacyProcessWithdrawal txId p adm =>
    simp only [applyEvent, process_withdrawal]
    by_cases hm : db.transactions.any (fun t => t.txId == txId)
    · simp only [hm, if_true]
      exact WF_updateTx h fun x => ⟨rfl, rfl⟩
    · simp only [hm, if_false]
      exact h
  | evCreatePix uid txId a mpc =>
    simp only [applyEvent, create_pix_payment]
    cases hu : findUser db uid with
    | none => exact h
    | some u =>
      dsimp only
      by_cases h10 : a < 10
      · rw [if_pos h10]; exact h
      · rw [if_neg h10]
        by_cases h2000 : 2000 < a
        · rw [if_pos h2000]; exact h
        · rw [if_neg h2000]
          cases hv : u.verified with
          | false => exact h
          | true =>
            by_cases hdup : hasPendingRecharge db uid a = true
            · rw [if_pos hdup]; exact h
            · rw [if_neg hdup]
              cases hs : mpc.success with
              | false => exact h
              | true =>
                exact @WF_appendTx db
                  { txId := txId, userId := uid, kind := .recharge,
                    status := .pending, amountInput := a, amountOutput := a,
                    mpPaymentId := some mpc.paymentId,
                    proofImage := none, processedBy := none }
                  h (by show (0:Int) ≤ a; omega) (by show (0:Int) ≤ a; omega)
  | evPixStatusPoll uid txId =>
    simp only [applyEvent, get_pix_status]
    cases hfind : findTx db (fun t => t.txId == txId && t.userId == uid) with
    | none => exact h
    | some t =>
      dsimp only
      have hout : 0 ≤ t.amountOutput :=
        (h.2.1 t (List.mem_of_find?_eq_some hfind)).2
      cases hst : t.status == TxStatus.completed with
      | true => exact h
      | false =>
        cases hpid : t.mpPaymentId with
        | none => exact h
        | some pid =>
          dsimp only
          cases hmpi : mp pid with
          | none => exact h
          | some i =>
            dsimp only
            cases hap : i.approved with
            | false => exact h
            | true =>
              exact WF_updateTx (WF_incBalance_credit h hout) fun x => ⟨rfl, rfl⟩
  | evVerifyProof uid txId pr =>
    simp only [applyEvent, verify_pix_with_proof]
    cases hfind : findTx db (fun t => t.txId == txId && t.userId == uid
        && t.kind == .recharge && t.status == .pending) with
    | none => exact h
    | some t =>
      dsimp only
      have hmem := List.mem_of_find?_eq_some hfind
      have hout : 0 ≤ t.amountOutput := (h.2.1 t hmem).2
      cases hpid : t.mpPaymentId with
      | none =>
        exact WF_updateTx h fun x => ⟨rfl, rfl⟩
      | some pid =>
        dsimp only
        cases hmpi : mp pid with
        | none => exact WF_updateTx h fun x => ⟨rfl, rfl⟩
        | some i =>
          dsimp only
          cases hap : i.approved with
          | false => exact WF_updateTx h fun x => ⟨rfl, rfl⟩
          | true =>
            exact WF_updateTx (WF_incBalance_credit h hout) fun x => ⟨rfl, rfl⟩
  | evWebhook paymentId =>
    simp only [applyEvent, mercadopago_webhook]
    cases hmpi : mp paymentId with
    | none => exact h
    | some i =>
      dsimp only
      cases hap : i.approved with
      | false => exact h
      | true =>
        cases href : i.externalReference with
        | none => exact h
        | some ref =>
          dsimp only
          cases hfind : findTx db (fun t => t.txId == ref && t.status == .pending) with
          | none => exact h
          | some t =>
            exact WF_updateTx
              (WF_incBalance_credit h
                (h.2.1 t (List.mem_of_find?_eq_some hfind)).2)
              fun x => ⟨rfl, rfl⟩
  | evApproveRecharge txId ap adm =>
    simp only [applyEvent, approve_recharge]
    cases hfind : findTx db (fun t => t.txId == txId && t.status == .pendingReview) with
    | none => exact h
    | some t =>
      have hmem := List.mem_of_find?_eq_some hfind
      cases ap with
      | true =>
        have hout : 0 ≤ t.amountOutput := (h.2.1 t hmem).2
        exact WF_updateTx (WF_incBalance_credit h hout) fun x => ⟨rfl, rfl⟩
      | false =>
        exact WF_updateTx h fun x => ⟨rfl, rfl⟩
  | evCancelPix uid txId =>
    simp only [applyEvent, cancel_pix_payment]
    cases hfind : findTx db (fun t => t.txId == txId && t.userId == uid
        && t.kind == .recharge
        && (t.status == .pending || t.status == .pendingReview)) with
    | none => exact h
    | some t => exact WF_updateTx h fun x => ⟨rfl, rfl⟩
  | evUpdateRate r =>
    refine ⟨h.1, h.2.1, ?_⟩
    simpa [update_exchange_rate, currentRate, applyEvent] using he

theorem WF_runEvents {mp : MPEnv} {db : DB} {es : List Event}
    (h : WF db) (hok : ∀ e ∈ es, eventOk e) : WF (runEvents mp db es) := by
  induction es generalizing db with
  | nil => exact h
  | cons e es ih =>
    exact ih (WF_applyEvent h (hok e (List.mem_cons_self e es)))
      fun x hx => hok x (List.mem_cons_of_mem e hx)

theorem getBalance_nonneg_of_WF {db : DB} (h : WF db) (uid : Nat) :
    0 ≤ getBalance db uid := by
  unfold getBalance
  cases hu : findUser db uid with
  | none => exact le_refl 0
  | some u => exact h.1 u (List.mem_of_find?_eq_some hu)

/-!
## Claim theorems
-/

/-- C1: the spec demands that for a pending topup, any interleaving of
concurrent completion triggers credits the balance exactly once.  The
webhook handler's three store calls are not atomic: with two deliveries
of the same approved event interleaved read/read/credit/mark/credit/mark,
both read the transaction as `pending` and both credit, leaving balance
100 for a topup of `amount_out = 50`; a single (or sequentially repeated)
delivery credits 50, and the fully sequential schedule agrees with the
atomic handler. -/
theorem c1_interleaved_double_credit :
    getBalance (run2 3 (fun _ => some ⟨true, some 7⟩)
      ⟨[⟨1, 0, true⟩],
       [{ txId := 7, userId := 1, kind := .recharge, status := .pending,
          amountInput := 50, amountOutput := 50, mpPaymentId := some 3 }],
       some 78⟩
      (.start, .start) [false, true, false, false, true, true]).1 1 = 100
    ∧ getBalance (mercadopago_webhook
      ⟨[⟨1, 0, true⟩],
       [{ txId := 7, userId := 1, kind := .recharge, status := .pending,
          amountInput := 50, amountOutput := 50, mpPaymentId := some 3 }],
       some 78⟩ 3 (fun _ => some ⟨true, some 7⟩)) 1 = 50
    ∧ (run2 3 (fun _ => some ⟨true, some 7⟩)
      ⟨[⟨1, 0, true⟩],
       [{ txId := 7, userId := 1, kind := .recharge, status := .pending,
          amountInput := 50, amountOutput := 50, mpPaymentId := some 3 }],
       some 78⟩
      (.start, .start) [false, false, false, true, true, true]).1
      = mercadopago_webhook
        ⟨[⟨1, 0, true⟩],
         [{ txId := 7, userId := 1, kind := .recharge, status := .pending,
            amountInput := 50, amountOutput := 50, mpPaymentId := some 3 }],
         some 78⟩ 3 (fun _ => some ⟨true, some 7⟩) := by
  refine ⟨by decide, by decide, by decide⟩

/-- C2 counterexample: on a concrete pending topup with the provider
reporting approved, the webhook handler's trace is
read / balance-credit / unguarded status write: the balance mutation is
not preceded by any status-guarded (compare-and-swap) transaction
update, refuting the claim that every balance mutation happens strictly
after a successful conditional status transition. -/
theorem c2_counterexample :
    (mercadopago_webhook_trace
      ⟨[⟨1, 0, true⟩],
       [{ txId := 7, userId := 1, kind := .recharge, status := .pending,
          amountInput := 50, amountOutput := 50, mpPaymentId := some 3 }],
       some 78⟩ 3 (fun _ => some ⟨true, some 7⟩)).2
      = [.readTx (some .pending) (some .pending), .writeBalance 50,
         .writeTx none .completed]
    ∧ creditAfterCas (mercadopago_webhook_trace
      ⟨[⟨1, 0, true⟩],
       [{ txId := 7, userId := 1, kind := .recharge, status := .pending,
          amountInput := 50, amountOutput := 50, mpPaymentId := some 3 }],
       some 78⟩ 3 (fun _ => some ⟨true, some 7⟩)).2 = false := by
  refine ⟨by decide, by decide⟩

/-- C4 counterexample: the admin balance-adjustment endpoint performs an
unconditional `$inc` with an arbitrary signed amount; adjusting an
account with balance 0 by -5 succeeds and leaves the observable balance
at -5, refuting `balance >= 0` over sequences that include admin
balance adjustments. -/
theorem c4_counterexample :
    (update_user_balance ⟨[⟨1, 0, true⟩], [], some 78⟩ 1 (-5)).2 = true
    ∧ getBalance (update_user_balance ⟨[⟨1, 0, true⟩], [], some 78⟩
        1 (-5)).1 1 = -5 := by
  refine ⟨by decide, by decide⟩

/-- C7: the spec says a terminal transaction record is immutable and only
one terminal state is ever reached, but `POST /withdrawal/process`
updates with no status filter: on a withdrawal already `rejected` it
reports success, overwrites the status to `completed` (a second terminal
state) and replaces the proof image. -/
theorem c7_terminal_overwritten :
    getTxStatus
      ⟨[⟨1, 400, true⟩],
       [{ txId := 5, userId := 1, kind := .withdrawal, status := .rejected,
          amountInput := 100, amountOutput := 7800, mpPaymentId := none,
          proofImage := some 4, processedBy := none }], some 78⟩ 5
      = some .rejected
    ∧ (process_withdrawal
      ⟨[⟨1, 400, true⟩],
       [{ txId := 5, userId := 1, kind := .withdrawal, status := .rejected,
          amountInput := 100, amountOutput := 7800, mpPaymentId := none,
          proofImage := some 4, processedBy := none }], some 78⟩ 5 9 2).2
      = .ok
    ∧ getTxStatus (process_withdrawal
      ⟨[⟨1, 400, true⟩],
       [{ txId := 5, userId := 1, kind := .withdrawal, status := .rejected,
          amountInput := 100, amountOutput := 7800, mpPaymentId := none,
          proofImage := some 4, processedBy := none }], some 78⟩ 5 9 2).1 5
      = some .completed
    ∧ ((process_withdrawal
      ⟨[⟨1, 400, true⟩],
       [{ txId := 5, userId := 1, kind := .withdrawal, status := .rejected,
          amountInput := 100, amountOutput := 7800, mpPaymentId := none,
          proofImage := some 4, processedBy := none }],
       some 78⟩ 5 9 2).1.transactions.map Tx.proofImage) = [some 9] := by
  refine ⟨by decide, by decide, by decide, by decide⟩

/-- C8 counterexample: with a `pending_review` topup of amount 50 already
present for the account, creating a new topup of the identical amount
succeeds and persists a second non-terminal topup of that amount; the
duplicate guard only checks status `pending`, refuting the claim for
`pending_review`. -/
theorem c8_counterexample :
    (create_pix_payment
      ⟨[⟨1, 0, true⟩],
       [{ txId := 7, userId := 1, kind := .recharge, status := .pendingReview,
          amountInput := 50, amountOutput := 50, mpPaymentId := some 3,
          proofImage := some 4, processedBy := none }], some 78⟩
      1 99 50 ⟨true, 11⟩).2
      = .created ⟨99, 1, .recharge, .pending, 50, 50, some 11, none, none⟩
    ∧ ((create_pix_payment
      ⟨[⟨1, 0, true⟩],
       [{ txId := 7, userId := 1, kind := .recharge, status := .pendingReview,
          amountInput := 50, amountOutput := 50, mpPaymentId := some 3,
          proofImage := some 4, processedBy := none }], some 78⟩
      1 99 50 ⟨true, 11⟩).1.transactions.countP
        (fun t => t.kind == .recharge && t.amountInput == 50
          && (t.status == .pending || t.status == .pendingReview))) = 2 := by
  refine ⟨by decide, by decide⟩

/-- C5: creating a payout with balance at least `amount_in` debits the
balance by exactly `amount_in` and inserts a `pending` transaction with
`amount_out = amount_in * rate` (the current exchange rate, default 78);
with balance below `amount_in` it fails with the insufficient-balance
error and leaves the store unchanged. -/
theorem c5_create_withdrawal_spec (db : DB) (uid k : Nat) (a : Int)
    (u : UserRec) (hu : findUser db uid = some u) :
    (u.balance < a → create_withdrawal db uid k a = (db, .insufficient))
    ∧ (a ≤ u.balance →
      (create_withdrawal db uid k a).2
        = .created ⟨k, uid, .withdrawal, .pending, a, a * currentRate db,
            none, none, none⟩
      ∧ (create_withdrawal db uid k a).1.transactions
        = db.transactions
          ++ [⟨k, uid, .withdrawal, .pending, a, a * currentRate db,
               none, none, none⟩]
      ∧ getBalance (create_withdrawal db uid k a).1 uid = u.balance - a) := by
  constructor
  · intro hb
    simp only [create_withdrawal, hu]
    rw [if_pos hb]
  · intro hb
    have hb' : ¬ u.balance < a := by omega
    simp only [create_withdrawal, hu]
    rw [if_neg hb']
    refine ⟨rfl, rfl, ?_⟩
    have hu1 : findUser { db with transactions := db.transactions
        ++ [⟨k, uid, .withdrawal, .pending, a, a * currentRate db,
             none, none, none⟩] } uid = some u := hu
    rw [getBalance_incBalance_self hu1]
    omega

/-- C5 witness: scenario A (balance 0, payout 100 refused, store
unchanged) and scenario B's creation half (balance 500, payout 100 at
rate 78 leaves balance 400). -/
theorem c5_witness :
    create_withdrawal ⟨[⟨1, 0, true⟩], [], some 78⟩ 1 7 100
      = (⟨[⟨1, 0, true⟩], [], some 78⟩, .insufficient)
    ∧ getBalance (create_withdrawal
        ⟨[⟨1, 500, true⟩], [], some 78⟩ 1 7 100).1 1 = 400 := by
  constructor
  · exact (c5_create_withdrawal_spec ⟨[⟨1, 0, true⟩], [], some 78⟩ 1 7 100
      ⟨1, 0, true⟩ rfl).1 (by decide)
  · exact ((c5_create_withdrawal_spec ⟨[⟨1, 500, true⟩], [], some 78⟩ 1 7 100
      ⟨1, 500, true⟩ rfl).2 (by decide)).2.2.trans (by decide)

/-- C9: updating the exchange rate replaces only the rate document and
leaves every stored transaction (in particular every payout's
`amount_out`) untouched; the completion/rejection paths
(`process_withdrawal_admin`, legacy `process_withdrawal`) never
recompute any transaction's `amount_out`. -/
theorem c9_rate_frame (db : DB) (r : Int) (k pr adm : Nat) (ap : Bool)
    (prf : Option Nat) :
    (update_exchange_rate db r).transactions = db.transactions
    ∧ (process_withdrawal_admin db k ap prf adm).1.transactions.map
        (fun t => (t.txId, t.amountOutput))
      = db.transactions.map (fun t => (t.txId, t.amountOutput))
    ∧ (process_withdrawal db k pr adm).1.transactions.map
        (fun t => (t.txId, t.amountOutput))
      = db.transactions.map (fun t => (t.txId, t.amountOutput)) := by
  refine ⟨rfl, ?_, ?_⟩
  · simp only [process_withdrawal_admin]
    cases hfind : findTx db (fun t => t.txId == k && t.status == .pending) with
    | none => rfl
    | some t =>
      dsimp only
      cases ap with
      | true =>
        cases prf with
        | none => rfl
        | some p =>
          dsimp only
          exact map_updateFirst fun x => rfl
      | false =>
        exact map_updateFirst fun x => rfl
  · simp only [process_withdrawal]
    by_cases hm : db.transactions.any (fun t => t.txId == k)
    · rw [if_pos hm]
      exact map_updateFirst fun x => rfl
    · rw [if_neg hm]

/-- C4 amended: excluding admin balance adjustments, and with the
nonnegativity the source never validates made explicit (payout creation
amounts and exchange-rate updates nonnegative, initial store
wellformed), every sequence of payout creations, payout
completions/rejections, topup creations/completions/cancellations,
status polls, proof submissions and webhook deliveries keeps every
account balance nonnegative at every intermediate and final state. -/
theorem c4_amended_no_negative_balance (mp : MPEnv) (db : DB)
    (es : List Event) (h : WF db) (hok : ∀ e ∈ es, eventOk e)
    (i uid : Nat) :
    0 ≤ getBalance (runEvents mp db (es.take i)) uid :=
  getBalance_nonneg_of_WF
    (WF_runEvents h fun e he => hok e (List.take_subset i es he)) uid

/-- C4 witness: balance 500, payout of 100 created then rejected; the
balance after each prefix of the sequence is nonnegative (shown for the
full sequence). -/
theorem c4_witness :
    0 ≤ getBalance (runEvents (fun _ => none) ⟨[⟨1, 500, true⟩], [], some 78⟩
      ([.evCreateWithdrawal 1 7 100,
        .evAdminProcessWithdrawal 7 false none 2].take 2)) 1 :=
  c4_amended_no_negative_balance (fun _ => none)
    ⟨[⟨1, 500, true⟩], [], some 78⟩
    [.evCreateWithdrawal 1 7 100, .evAdminProcessWithdrawal 7 false none 2]
    ⟨by decide, by decide, by decide⟩
    (fun e he => by
      rcases List.mem_cons.mp he with rfl | he2
      · show (0:Int) ≤ 100
        decide
      · rcases List.mem_singleton.mp he2 with rfl
        trivial)
    2 1

/-- C8 amended: the duplicate-payment guard triggers only on another
topup in status `pending` (not `pending_review`) with the identical
input amount: when such a pending duplicate exists, creation fails
synchronously with the duplicate-pending error and persists nothing;
otherwise (amount in bounds, account verified, provider call succeeds)
creation inserts the new `pending` topup. -/
theorem c8_amended_duplicate_guard (db : DB) (uid k : Nat) (a : Int)
    (u : UserRec) (m : MPCreate)
    (hu : findUser db uid = some u) (hv : u.verified = true)
    (h10 : 10 ≤ a) (h2000 : a ≤ 2000) :
    (hasPendingRecharge db uid a = true →
      create_pix_payment db uid k a m = (db, .duplicatePending))
    ∧ (hasPendingRecharge db uid a = false → m.success = true →
      (create_pix_payment db uid k a m).2
        = .created ⟨k, uid, .recharge, .pending, a, a, some m.paymentId,
            none, none⟩
      ∧ (create_pix_payment db uid k a m).1.transactions
        = db.transactions
          ++ [⟨k, uid, .recharge, .pending, a, a, some m.paymentId,
               none, none⟩]) := by
  have h10' : ¬ a < 10 := by omega
  have h2000' : ¬ 2000 < a := by omega
  constructor
  · intro hdup
    simp only [create_pix_payment, hu]
    rw [if_neg h10', if_neg h2000', hv,
      if_neg (by decide : ¬ ((!true) = true)), if_pos hdup]
  · intro hdup hs
    simp only [create_pix_payment, hu]
    rw [if_neg h10', if_neg h2000', hv,
      if_neg (by decide : ¬ ((!true) = true)),
      if_neg (by simp [hdup] : ¬ (hasPendingRecharge db uid a = true)), hs,
      if_neg (by decide : ¬ ((!true) = true))]
    exact ⟨rfl, rfl⟩

/-- C8 witness: with a pending topup of 50 present, creating another
topup of 50 is refused and the store is unchanged; with no pending
duplicate, creation of a topup of 50 succeeds. -/
theorem c8_witness :
    create_pix_payment
      ⟨[⟨1, 0, true⟩],
       [{ txId := 7, userId := 1, kind := .recharge, status := .pending,
          amountInput := 50, amountOutput := 50, mpPaymentId := some 3 }],
       some 78⟩ 1 99 50 ⟨true, 11⟩
      = (⟨[⟨1, 0, true⟩],
          [{ txId := 7, userId := 1, kind := .recharge, status := .pending,
             amountInput := 50, amountOutput := 50, mpPaymentId := some 3 }],
          some 78⟩, .duplicatePending)
    ∧ (create_pix_payment ⟨[⟨1, 0, true⟩], [], some 78⟩ 1 99 50
        ⟨true, 11⟩).2
      = .created ⟨99, 1, .recharge, .pending, 50, 50, some 11, none, none⟩ := by
  constructor
  · exact (c8_amended_duplicate_guard
      ⟨[⟨1, 0, true⟩],
       [{ txId := 7, userId := 1, kind := .recharge, status := .pending,
          amountInput := 50, amountOutput := 50, mpPaymentId := some 3 }],
       some 78⟩ 1 99 50 ⟨1, 0, true⟩ ⟨true, 11⟩
      rfl rfl (by decide) (by decide)).1 (by decide)
  · exact ((c8_amended_duplicate_guard ⟨[⟨1, 0, true⟩], [], some 78⟩ 1 99 50
      ⟨1, 0, true⟩ ⟨true, 11⟩ rfl rfl (by decide) (by decide)).2
      (by decide) rfl).1

/-- C6: creating a payout of `amount_in` from balance `B` leaves balance
`B - amount_in` and a `pending` payout; the operator reject path then
credits back exactly `amount_in`, restoring the balance to `B` (net
effect zero) and setting the transaction to `rejected`. -/
theorem c6_reject_restores_balance (db : DB) (uid k adm : Nat) (a : Int)
    (u : UserRec)
    (hu : findUser db uid = some u) (ha : a ≤ u.balance)
    (hfresh : db.transactions.find? (fun t => t.txId == k) = none) :
    getBalance (create_withdrawal db uid k a).1 uid = u.balance - a
    ∧ getTxStatus (create_withdrawal db uid k a).1 k = some .pending
    ∧ getBalance (process_withdrawal_admin (create_withdrawal db uid k a).1
        k false none adm).1 uid = u.balance
    ∧ getTxStatus (process_withdrawal_admin (create_withdrawal db uid k a).1
        k false none adm).1 k = some .rejected := by
  have hb' : ¬ u.balance < a := by omega
  have hfresh2 : db.transactions.find?
      (fun t => t.txId == k && t.status == TxStatus.pending) = none := by
    rw [List.find?_eq_none]
    intro x hx hqx
    exact absurd ((Bool.and_eq_true _ _).mp hqx).1
      (by simpa using List.find?_eq_none.mp hfresh x hx)
  have hcw : create_withdrawal db uid k a
      = (incBalance { db with transactions := db.transactions
          ++ [⟨k, uid, .withdrawal, .pending, a, a * currentRate db,
               none, none, none⟩] } uid (-a),
         .created ⟨k, uid, .withdrawal, .pending, a, a * currentRate db,
               none, none, none⟩) := by
    simp only [create_withdrawal, hu]
    rw [if_neg hb']
  have hu1 : findUser { db with transactions := db.transactions
      ++ [⟨k, uid, .withdrawal, .pending, a, a * currentRate db,
           none, none, none⟩] } uid = some u := hu
  have hfind1 : (db.transactions
      ++ [(⟨k, uid, .withdrawal, .pending, a, a * currentRate db,
           none, none, none⟩ : Tx)]).find? (fun t => t.txId == k)
      = some ⟨k, uid, .withdrawal, .pending, a, a * currentRate db,
           none, none, none⟩ := by
    rw [find?_append_of_none hfresh]
    exact List.find?_cons_of_pos _ (by simp)
  have hfind2 : (db.transactions
      ++ [(⟨k, uid, .withdrawal, .pending, a, a * currentRate db,
           none, none, none⟩ : Tx)]).find?
        (fun t => t.txId == k && t.status == TxStatus.pending)
      = some ⟨k, uid, .withdrawal, .pending, a, a * currentRate db,
           none, none, none⟩ := by
    rw [find?_append_of_none hfresh2]
    exact List.find?_cons_of_pos _ (by simp)
  rw [hcw]
  dsimp only
  refine ⟨?_, ?_, ?_, ?_⟩
  · rw [getBalance_incBalance_self hu1]
    omega
  · show ((db.transactions
      ++ [(⟨k, uid, .withdrawal, .pending, a, a * currentRate db,
           none, none, none⟩ : Tx)]).find? (fun t => t.txId == k)).map
        Tx.status = some .pending
    rw [hfind1]
    rfl
  · simp only [process_withdrawal_admin, findTx, incBalance_transactions]
    rw [hfind2]
    dsimp only
    rw [if_neg (by decide : ¬ (false = true))]
    rw [getBalance_updateTx, getBalance_incBalance_self
      (findUser_incBalance_self hu1)]
    show u.balance + -a + a = u.balance
    omega
  · simp only [process_withdrawal_admin, findTx, incBalance_transactions]
    rw [hfind2]
    dsimp only
    rw [if_neg (by decide : ¬ (false = true))]
    show ((updateFirst (fun x => x.txId == k)
        (fun x => { x with status := TxStatus.rejected })
        (db.transactions
          ++ [(⟨k, uid, .withdrawal, .pending, a, a * currentRate db,
               none, none, none⟩ : Tx)])).find?
        (fun t => t.txId == k)).map Tx.status = some .rejected
    rw [updateFirst_append_of_none hfresh,
      updateFirst_cons_pos (by simp), find?_append_of_none hfresh]
    rw [List.find?_cons_of_pos _ (by simp)]
    rfl

/-- C6 witness: scenario B — balance 500, payout of 100 at rate 78:
after creation balance 400 and a pending payout; after the operator
reject, balance 500 and the payout `rejected`. -/
theorem c6_witness :
    getBalance (create_withdrawal
      ⟨[⟨1, 500, true⟩], [], some 78⟩ 1 7 100).1 1 = 400
    ∧ getTxStatus (create_withdrawal
      ⟨[⟨1, 500, true⟩], [], some 78⟩ 1 7 100).1 7 = some .pending
    ∧ getBalance (process_withdrawal_admin (create_withdrawal
      ⟨[⟨1, 500, true⟩], [], some 78⟩ 1 7 100).1 7 false none 2).1 1 = 500
    ∧ getTxStatus (process_withdrawal_admin (create_withdrawal
      ⟨[⟨1, 500, true⟩], [], some 78⟩ 1 7 100).1 7 false none 2).1 7
      = some .rejected := by
  have h := c6_reject_restores_balance ⟨[⟨1, 500, true⟩], [], some 78⟩
    1 7 2 100 ⟨1, 500, true⟩ rfl (by decide) rfl
  exact ⟨h.1.trans (by decide), h.2.1, h.2.2.1, h.2.2.2⟩

/-- C3: a provider-approved webhook delivery against a pending topup
(with a unique transaction id and an existing owner account) sets the
transaction to `completed` and credits the balance by exactly
`amount_out`; every further delivery of the identical event is a no-op
on the whole store, so N sequential deliveries produce one credit and
N-1 no-ops. -/
theorem c3_webhook_replay_idempotent (db : DB) (pid ref : Nat) (mp : MPEnv)
    (tx : Tx) (u : UserRec)
    (hmp : mp pid = some ⟨true, some ref⟩)
    (hfind : db.transactions.find?
      (fun t => t.txId == ref && t.status == TxStatus.pending) = some tx)
    (hcount : db.transactions.countP (fun t => t.txId == ref) ≤ 1)
    (hu : findUser db tx.userId = some u) :
    getTxStatus (mercadopago_webhook db pid mp) ref = some .completed
    ∧ getBalance (mercadopago_webhook db pid mp) tx.userId
      = u.balance + tx.amountOutput
    ∧ ∀ n, (fun d => mercadopago_webhook d pid mp)^[n]
        (mercadopago_webhook db pid mp) = mercadopago_webhook db pid mp := by
  have himp : ∀ x : Tx,
      (x.txId == ref && x.status == TxStatus.pending) = true →
      (x.txId == ref) = true :=
    fun x hx => ((Bool.and_eq_true _ _).mp hx).1
  have htxp : (tx.txId == ref) = true := himp tx
    (@List.find?_some Tx
      (fun t => t.txId == ref && t.status == TxStatus.pending)
      tx db.transactions hfind)
  have hkey : db.transactions.find? (fun t => t.txId == ref) = some tx :=
    find?_of_find?_imp_unique hfind himp hcount
  have hweb : mercadopago_webhook db pid mp
      = updateTx (incBalance db tx.userId tx.amountOutput)
          (fun x => x.txId == ref)
          (fun x => { x with status := TxStatus.completed }) := by
    simp only [mercadopago_webhook, hmp, findTx, hfind, if_true]
  have hnone : ((updateTx (incBalance db tx.userId tx.amountOutput)
      (fun x => x.txId == ref)
      (fun x => { x with status := TxStatus.completed })).transactions.find?
      (fun t => t.txId == ref && t.status == TxStatus.pending)) = none := by
    show ((updateFirst (fun x => x.txId == ref)
      (fun x => { x with status := TxStatus.completed })
      db.transactions).find?
      (fun t => t.txId == ref && t.status == TxStatus.pending)) = none
    exact find?_updateFirst_none (fun x _ => himp x) (fun x hx => by simp) hcount
  have hfix : mercadopago_webhook (mercadopago_webhook db pid mp) pid mp
      = mercadopago_webhook db pid mp := by
    conv in mercadopago_webhook (mercadopago_webhook db pid mp) pid mp =>
      rw [hweb]
    rw [hweb]
    simp only [mercadopago_webhook, hmp, findTx, hnone, if_true]
  refine ⟨?_, ?_, ?_⟩
  · rw [hweb]
    show ((updateFirst (fun x => x.txId == ref)
      (fun x => { x with status := TxStatus.completed })
      db.transactions).find? (fun t => t.txId == ref)).map Tx.status
      = some TxStatus.completed
    rw [find?_updateFirst_same hkey htxp]
    rfl
  · rw [hweb, getBalance_updateTx, getBalance_incBalance_self hu]
  · intro n
    exact Function.iterate_fixed hfix n

/-- C3 witness: scenario C — topup of 50 pending, approved webhook
delivered: transaction `completed`, balance 50; two further identical
deliveries leave the store exactly as after the first. -/
theorem c3_witness :
    getTxStatus (mercadopago_webhook
      ⟨[⟨1, 0, true⟩],
       [{ txId := 7, userId := 1, kind := .recharge, status := .pending,
          amountInput := 50, amountOutput := 50, mpPaymentId := some 3 }],
       some 78⟩ 3 (fun _ => some ⟨true, some 7⟩)) 7 = some .completed
    ∧ getBalance (mercadopago_webhook
      ⟨[⟨1, 0, true⟩],
       [{ txId := 7, userId := 1, kind := .recharge, status := .pending,
          amountInput := 50, amountOutput := 50, mpPaymentId := some 3 }],
       some 78⟩ 3 (fun _ => some ⟨true, some 7⟩)) 1 = 50
    ∧ (fun d => mercadopago_webhook d 3 (fun _ => some ⟨true, some 7⟩))^[2]
        (mercadopago_webhook
      ⟨[⟨1, 0, true⟩],
       [{ txId := 7, userId := 1, kind := .recharge, status := .pending,
          amountInput := 50, amountOutput := 50, mpPaymentId := some 3 }],
       some 78⟩ 3 (fun _ => some ⟨true, some 7⟩))
      = mercadopago_webhook
      ⟨[⟨1, 0, true⟩],
       [{ txId := 7, userId := 1, kind := .recharge, status := .pending,
          amountInput := 50, amountOutput := 50, mpPaymentId := some 3 }],
       some 78⟩ 3 (fun _ => some ⟨true, some 7⟩) := by
  have h := c3_webhook_replay_idempotent
    ⟨[⟨1, 0, true⟩],
     [{ txId := 7, userId := 1, kind := .recharge, status := .pending,
        amountInput := 50, amountOutput := 50, mpPaymentId := some 3 }],
     some 78⟩ 3 7 (fun _ => some ⟨true, some 7⟩)
    ⟨7, 1, .recharge, .pending, 50, 50, some 3, none, none⟩
    ⟨1, 0, true⟩ rfl rfl (by decide) rfl
  exact ⟨h.1, h.2.1.trans (by decide), h.2.2 2⟩

theorem create_pix_payment_success (db : DB) (uid k : Nat) (a : Int)
    (u : UserRec) (m : MPCreate)
    (hu : findUser db uid = some u) (hv : u.verified = true)
    (h10 : 10 ≤ a) (h2000 : a ≤ 2000)
    (hdup : hasPendingRecharge db uid a = false)
    (hm : m.success = true) :
    create_pix_payment db uid k a m
      = ({ db with transactions := db.transactions
            ++ [⟨k, uid, .recharge, .pending, a, a, some m.paymentId,
                 none, none⟩] },
         .created ⟨k, uid, .recharge, .pending, a, a, some m.paymentId,
                 none, none⟩) := by
  simp only [create_pix_payment, hu]
  rw [if_neg (by omega : ¬ a < 10), if_neg (by omega : ¬ 2000 < a), hv,
    if_neg (by decide : ¬ ((!true) = true)),
    if_neg (by simp [hdup] : ¬ (hasPendingRecharge db uid a = true)), hm,
    if_neg (by decide : ¬ ((!true) = true))]

/-- C10: a successful topup creation stores
`amount_output = amount_input = amount` (a fixed 1:1 conversion — the
same transaction record results whatever the stored exchange rate is),
and the webhook completion path credits the balance by exactly that
amount. -/
theorem c10_pix_one_to_one (db : DB) (uid k : Nat) (a : Int)
    (u : UserRec) (m : MPCreate) (r : Int)
    (hu : findUser db uid = some u) (hv : u.verified = true)
    (h10 : 10 ≤ a) (h2000 : a ≤ 2000)
    (hdup : hasPendingRecharge db uid a = false)
    (hm : m.success = true)
    (hfresh : db.transactions.find? (fun t => t.txId == k) = none) :
    (create_pix_payment db uid k a m).2
      = .created ⟨k, uid, .recharge, .pending, a, a, some m.paymentId,
          none, none⟩
    ∧ (create_pix_payment { db with rate := some r } uid k a m).2
      = .created ⟨k, uid, .recharge, .pending, a, a, some m.paymentId,
          none, none⟩
    ∧ getBalance (mercadopago_webhook (create_pix_payment db uid k a m).1
        m.paymentId (fun _ => some ⟨true, some k⟩)) uid
      = u.balance + a := by
  have hc := create_pix_payment_success db uid k a u m hu hv h10 h2000 hdup hm
  have hc2 := create_pix_payment_success { db with rate := some r } uid k a u m
    hu hv h10 h2000 hdup hm
  have hfresh2 : db.transactions.find?
      (fun t => t.txId == k && t.status == TxStatus.pending) = none := by
    rw [List.find?_eq_none]
    intro x hx hqx
    exact absurd ((Bool.and_eq_true _ _).mp hqx).1
      (by simpa using List.find?_eq_none.mp hfresh x hx)
  have hfind3 : (db.transactions
      ++ [(⟨k, uid, .recharge, .pending, a, a, some m.paymentId,
           none, none⟩ : Tx)]).find?
        (fun t => t.txId == k && t.status == TxStatus.pending)
      = some ⟨k, uid, .recharge, .pending, a, a, some m.paymentId,
           none, none⟩ := by
    rw [find?_append_of_none hfresh2]
    exact List.find?_cons_of_pos _ (by simp)
  refine ⟨by rw [hc], by rw [hc2], ?_⟩
  rw [hc]
  dsimp only
  simp only [mercadopago_webhook, findTx, hfind3, if_true]
  rw [getBalance_updateTx]
  exact getBalance_incBalance_self hu

/-- C10 witness: topup of 50 created with no rate document stored, and
again with rate 123: both store `amount_input = amount_output = 50`; the
approved webhook then leaves balance 50. -/
theorem c10_witness :
    (create_pix_payment ⟨[⟨1, 0, true⟩], [], none⟩ 1 99 50 ⟨true, 11⟩).2
      = .created ⟨99, 1, .recharge, .pending, 50, 50, some 11, none, none⟩
    ∧ (create_pix_payment ⟨[⟨1, 0, true⟩], [], some 123⟩ 1 99 50
        ⟨true, 11⟩).2
      = .created ⟨99, 1, .recharge, .pending, 50, 50, some 11, none, none⟩
    ∧ getBalance (mercadopago_webhook
        (create_pix_payment ⟨[⟨1, 0, true⟩], [], none⟩ 1 99 50
          ⟨true, 11⟩).1 11 (fun _ => some ⟨true, some 99⟩)) 1 = 50 := by
  have h := c10_pix_one_to_one ⟨[⟨1, 0, true⟩], [], none⟩ 1 99 50
    ⟨1, 0, true⟩ ⟨true, 11⟩ 123 rfl rfl (by decide) (by decide) rfl rfl rfl
  exact ⟨h.1, h.2.1, h.2.2.trans (by decide)⟩

/-- C2 amended: in each completion handler (webhook, status poll, proof
submission), every balance mutation is preceded by a plain read that
observed the transaction in a not-yet-`completed` status and is followed
by a status write to the terminal status, but that status write is
unguarded and no status-guarded (compare-and-swap) write precedes the
balance mutation — the check-then-act ordering implemented by the code,
not the CAS-before-credit ordering the claim states. -/
theorem c2_amended_credit_ordering (db : DB) (pid uid k pr : Nat)
    (mp : MPEnv) :
    creditAfterObservedRead (mercadopago_webhook_trace db pid mp).2 = true
    ∧ creditAfterObservedRead (get_pix_status_trace db uid k mp).2 = true
    ∧ creditAfterObservedRead
        (verify_pix_with_proof_trace db uid k pr mp).2 = true := by
  refine ⟨?_, ?_, ?_⟩
  · simp only [mercadopago_webhook_trace]
    cases hmpi : mp pid with
    | none => rfl
    | some i =>
      dsimp only
      cases hap : i.approved with
      | false => rfl
      | true =>
        cases href : i.externalReference with
        | none => rfl
        | some ref =>
          dsimp only
          cases hfind : findTx db
              (fun t => t.txId == ref && t.status == TxStatus.pending) with
          | none => rfl
          | some t =>
            have hfind2 : db.transactions.find?
                (fun t => t.txId == ref && t.status == TxStatus.pending)
                = some t := hfind
            have hst : t.status = TxStatus.pending := by
              have h2 := @List.find?_some Tx
                (fun t => t.txId == ref && t.status == TxStatus.pending)
                t db.transactions hfind2
              simpa using ((Bool.and_eq_true _ _).mp h2).2
            dsimp only
            simp [creditAfterObservedRead, hst]
  · simp only [get_pix_status_trace]
    cases hfind : findTx db (fun t => t.txId == k && t.userId == uid) with
    | none => rfl
    | some t =>
      dsimp only
      cases hst : t.status == TxStatus.completed with
      | true => rfl
      | false =>
        cases hpid : t.mpPaymentId with
        | none => rfl
        | some pid2 =>
          dsimp only
          cases hmpi : mp pid2 with
          | none => rfl
          | some i =>
            dsimp only
            cases hap : i.approved with
            | false => rfl
            | true => simp [creditAfterObservedRead, hst]
  · simp only [verify_pix_with_proof_trace]
    cases hfind : findTx db (fun t => t.txId == k && t.userId == uid
        && t.kind == TxKind.recharge && t.status == TxStatus.pending) with
    | none => rfl
    | some t =>
      have hfind2 : db.transactions.find?
          (fun t => t.txId == k && t.userId == uid
            && t.kind == TxKind.recharge && t.status == TxStatus.pending)
          = some t := hfind
      have hst : t.status = TxStatus.pending := by
        have h2 := @List.find?_some Tx
          (fun t => t.txId == k && t.userId == uid
            && t.kind == TxKind.recharge && t.status == TxStatus.pending)
          t db.transactions hfind2
        simpa using ((Bool.and_eq_true _ _).mp h2).2
      dsimp only
      cases hpid : t.mpPaymentId with
      | none => simp [creditAfterObservedRead, hst]
      | some pid2 =>
        dsimp only
        cases hmpi : mp pid2 with
        | none => simp [creditAfterObservedRead, hst]
        | some i =>
          dsimp only
          cases hap : i.approved with
          | false => simp [creditAfterObservedRead, hst]
          | true => simp [creditAfterObservedRead, hst]
